import Mathlib

/-!
Shallow embedding of the BF5D execution engine (`src/interpreter/types.rs`).

Conventions of the embedding:
* `Wrapping<u8>` cells are `Nat` values; wrapping arithmetic is explicit
  (`(v + 1) % 256`, `(v + 255) % 256`, `c % 256`).
* `isize` offsets are `Int`, `usize` indices are `Nat`.
* Rust operations that can panic (`unwrap`, `get_mut(..).unwrap()`,
  `panic!("undefined command direction")`) are modelled by `Option`: a
  `none` result is a panic of the original program.
* The thread-local `ID_GEN` counter is modelled by passing the freshly
  generated id explicitly (`fresh` below): `clone_new_id` takes the id the
  generator would produce.
* Loops `for ptr in self.pointers.clone() { ... }` become structural
  recursion over the pointer list, processing elements in the same order.
-/

namespace BF5D

/-- Modelled from the spec: the `MoveDirection` variants of the external
parser crate (`crate::parser::types`), whose file is not part of the
sources; `Left`/`Right` move cursors on the tape, `Up`/`Down` move them
across timelines. -/
inductive MoveDirection
  | Left
  | Right
  | Up
  | Down
deriving DecidableEq

/-- Modelled from the spec: the `UpdateType` variants of the external
parser crate. -/
inductive UpdateType
  | Increment
  | Decrement
deriving DecidableEq

/-- Modelled from the spec: the `JumpType` variants of the external parser
crate. -/
inductive JumpType
  | IfZero
  | IfNotZero
deriving DecidableEq

/-- Modelled from the spec: the `Token` variants of the external parser
crate, exactly the variants matched by `Timeline::update`. -/
inductive Token
  | Move (dir : MoveDirection)
  | Update (type_ : UpdateType)
  | Write
  | Read
  | Rewind
  | Jump (type_ : JumpType) (index : Nat)
  | Await
  | Kill
  | Spawn (index : Nat)
deriving DecidableEq

/-- Mirrors `backwards_index`: transforms a (negative) offset into an index
into the backwards data array. -/
def backwards_index (index : Int) : Nat :=
  if index < 0 then (-(index + 1)).toNat else index.toNat

/-- Mirrors `struct Timeline`.  The field `tape` is the undo log (a stack
of time-slices), as in the source; `data` / `data_backwards` are the two
halves of the byte tape. -/
structure Timeline where
  id : Nat
  data : List Nat
  data_backwards : List Nat
  pointers : List Int
  tape : List (List (Int × Nat))
  instruction_pointer : Nat
  alive : Bool
deriving DecidableEq

/-- Mirrors `enum Command`. -/
inductive Command
  | None
  | MovePointer (id : Nat) (direction : MoveDirection)
  | SpawnAt (id : Nat) (instruction_start : Nat)
  | RemoveAt (id : Nat)
deriving DecidableEq

/-- Mirrors `struct TimelineMeta` (the tick-snapshot entry). -/
structure TimelineMeta where
  id : Nat
  pointers_count : Nat
deriving DecidableEq

/-- Mirrors `struct BF5DContext`.  `program_input` / `program_output` are
byte sequences (the Rust code stores `String`s and converts via `as u8` /
`as char`). -/
structure BF5DContext where
  raw_program : String
  tokens : List Token
  program_input : List Nat
  program_output : List Nat
  total_timelines : Nat
  metadata : List TimelineMeta
  need_history : Bool
deriving DecidableEq

/-- Mirrors `Timeline::new`; the id the `ID_GEN` counter would hand out is
passed explicitly. -/
def Timeline.new (id : Nat) : Timeline :=
  { id := id, data := [0], data_backwards := [], pointers := [0], tape := [],
    instruction_pointer := 0, alive := true }

/-- Mirrors `Timeline::clone_new_id`; the id the `ID_GEN` counter would
hand out is passed explicitly. -/
def Timeline.clone_new_id (t : Timeline) (id : Nat) : Timeline :=
  { t with id := id }

/-- Mirrors `Timeline::data_at`: a fallible read of the cell at a signed
offset (`None` when the offset is not covered by the tape). -/
def Timeline.data_at (t : Timeline) (index : Int) : Option Nat :=
  if index < 0 then t.data_backwards.get? (backwards_index index)
  else t.data.get? index.toNat

/-- Mirrors `Timeline::extend_data`: grow the relevant half of the tape
with zero cells so that `index` is covered. -/
def Timeline.extend_data (t : Timeline) (index : Int) : Timeline :=
  if index < 0 then
    if t.data_backwards.length ≤ backwards_index index then
      { t with data_backwards :=
          t.data_backwards ++
            List.replicate (backwards_index index + 1 - t.data_backwards.length) 0 }
    else t
  else
    if t.data.length ≤ index.toNat then
      { t with data := t.data ++ List.replicate (index.toNat + 1 - t.data.length) 0 }
    else t

/-- The write half of `Timeline::data_at_mut` (`*self.data_at_mut(i) = v`
after the `extend_data` call): store `v` at the already-covered offset. -/
def Timeline.set_raw (t : Timeline) (index : Int) (v : Nat) : Timeline :=
  if index < 0 then
    { t with data_backwards := t.data_backwards.set (backwards_index index) v }
  else
    { t with data := t.data.set index.toNat v }

/-- Mirrors `*self.data_at_mut(index) = v`: extend, then store. -/
def Timeline.poke (t : Timeline) (index : Int) (v : Nat) : Timeline :=
  (t.extend_data index).set_raw index v

/-- Loop body of `Move(Left)` / `Move(Right)`: shift every pointer by `d`,
extending the tape to cover each shifted pointer, in pointer order.
Returns the new pointer list and the timeline with the extended tape. -/
def moveLoop (d : Int) : List Int → Timeline → List Int × Timeline
  | [], t => ([], t)
  | p :: ps, t =>
    let r := moveLoop d ps (t.extend_data (p + d))
    ((p + d) :: r.1, r.2)

/-- The whole `Move(Left)` / `Move(Right)` arm of phase 1. -/
def Timeline.movePointers (t : Timeline) (d : Int) : Timeline :=
  let r := moveLoop d t.pointers t
  { r.2 with pointers := r.1 }

/-- Loop of the `Increment` / `Decrement` arms: for every pointer in
order, record `(ptr, old value)` into the slice, then store `f old`.
`data_at` after `extend_data` is always `some`, so the `getD 0` default is
never taken (see `extend_data_data_at_isSome`). -/
def incDecLoop (f : Nat → Nat) : List Int → Timeline → Timeline × List (Int × Nat)
  | [], t => (t, [])
  | p :: ps, t =>
    let t1 := t.extend_data p
    let v := (t1.data_at p).getD 0
    let r := incDecLoop f ps (t1.set_raw p (f v))
    (r.1, (p, v) :: r.2)

/-- Loop of the `Read` arm: for every pointer in order, pop the next input
byte (0 when the input is exhausted), record `(ptr, old value)`, store the
byte. -/
def readLoop : List Int → Timeline → List Nat → Timeline × List Nat × List (Int × Nat)
  | [], t, input => (t, input, [])
  | p :: ps, t, input =>
    let c := match input with
      | [] => 0
      | c :: _ => c
    let rest : List Nat := match input with
      | [] => []
      | _ :: r => r
    let t1 := t.extend_data p
    let v := (t1.data_at p).getD 0
    let r := readLoop ps (t1.set_raw p (c % 256)) rest
    (r.1, r.2.1, (p, v) :: r.2.2)

/-- Replay loop of the `Rewind` arm: restore each recorded
`(offset, value)` pair in recorded order. -/
def rewindLoop : List (Int × Nat) → Timeline → Timeline
  | [], t => t
  | (p, v) :: s, t => rewindLoop s ((t.extend_data p).set_raw p v)

/-- The `IfZero` guard:
`pointers.iter().map(|i| data_at(i)).all(|x| *x.unwrap() == 0)` with the
iterator's laziness: `none` models the `unwrap` panic, and a nonzero cell
short-circuits before later cells are read. -/
def allZeroAux (t : Timeline) : List Int → Option Bool
  | [] => some true
  | p :: ps =>
    match t.data_at p with
    | none => none
    | some v => if v = 0 then allZeroAux t ps else some false

/-- The `IfNotZero` guard:
`pointers.iter().map(|i| data_at(i)).any(|x| *x.unwrap() != 0)`, with the
same laziness as `allZeroAux`. -/
def anyNonzeroAux (t : Timeline) : List Int → Option Bool
  | [] => some false
  | p :: ps =>
    match t.data_at p with
    | none => none
    | some v => if v ≠ 0 then some true else anyNonzeroAux t ps

/-- Phase 1 of `Timeline::update`: the "actions that don't dispatch
commands" match. -/
def Timeline.step_phase1 (t : Timeline) (ctx : BF5DContext) : Token → Option (Timeline × BF5DContext)
  | Token.Move MoveDirection.Left => some (t.movePointers (-1), ctx)
  | Token.Move MoveDirection.Right => some (t.movePointers 1, ctx)
  | Token.Update UpdateType.Increment =>
    let r := incDecLoop (fun v => (v + 1) % 256) t.pointers t
    some ((if ctx.need_history then { r.1 with tape := r.1.tape ++ [r.2] } else r.1), ctx)
  | Token.Update UpdateType.Decrement =>
    let r := incDecLoop (fun v => (v + 255) % 256) t.pointers t
    some ((if ctx.need_history then { r.1 with tape := r.1.tape ++ [r.2] } else r.1), ctx)
  | Token.Write =>
    (t.pointers.mapM t.data_at).map
      (fun bytes => (t, { ctx with program_output := ctx.program_output ++ bytes }))
  | Token.Read =>
    let r := readLoop t.pointers t ctx.program_input
    some ((if ctx.need_history then { r.1 with tape := r.1.tape ++ [r.2.2] } else r.1),
      { ctx with program_input := r.2.1 })
  | Token.Rewind =>
    match t.tape.getLast? with
    | none => some (t, ctx)
    | some slice => some (rewindLoop slice { t with tape := t.tape.dropLast }, ctx)
  | _ => some (t, ctx)

/-- Phase 2 of `Timeline::update`: the "instruction pointer related
actions" match. -/
def Timeline.step_phase2 (t : Timeline) (ctx : BF5DContext) : Token → Option Timeline
  | Token.Jump JumpType.IfZero index =>
    (allZeroAux t t.pointers).map
      (fun b => if b then { t with instruction_pointer := index }
        else { t with instruction_pointer := t.instruction_pointer + 1 })
  | Token.Jump JumpType.IfNotZero index =>
    (anyNonzeroAux t t.pointers).map
      (fun b => if b then { t with instruction_pointer := index }
        else { t with instruction_pointer := t.instruction_pointer + 1 })
  | Token.Await =>
    match ctx.metadata.findIdx? (fun meta => meta.id == t.id) with
    | none => none
    | some timeline_index =>
      match ctx.metadata.get? (timeline_index + 1) with
      | some meta =>
        if meta.pointers_count = 0 then
          some { t with instruction_pointer := t.instruction_pointer + 1 }
        else some t
      | none => some { t with instruction_pointer := t.instruction_pointer + 1 }
  | _ => some { t with instruction_pointer := t.instruction_pointer + 1 }

/-- Phase 3 of `Timeline::update`: the "command dispatching actions"
match (evaluated on the phase-2 result, whose `id` phase 2 never
changes). -/
def Timeline.step_phase3 (t : Timeline) : Token → Command
  | Token.Kill => Command.RemoveAt t.id
  | Token.Move MoveDirection.Up => Command.MovePointer t.id MoveDirection.Up
  | Token.Move MoveDirection.Down => Command.MovePointer t.id MoveDirection.Down
  | Token.Spawn index => Command.SpawnAt t.id index
  | _ => Command.None

/-- Mirrors `Timeline::update`: fetch the token at `instruction_pointer`
(out of range yields `RemoveAt(self.id)` with nothing mutated), then run
the three phases in order. -/
def Timeline.update (t : Timeline) (ctx : BF5DContext) : Option (Timeline × BF5DContext × Command) :=
  match ctx.tokens.get? t.instruction_pointer with
  | none => some (t, ctx, Command.RemoveAt t.id)
  | some action =>
    match t.step_phase1 ctx action with
    | none => none
    | some r =>
      match r.1.step_phase2 r.2 action with
      | none => none
      | some t2 => some (t2, r.2, t2.step_phase3 action)

/-- Mirrors `BF5DContext::collect_timeline_metadata` (the tick
snapshot). -/
def collect_timeline_metadata (ctx : BF5DContext) (timelines : List Timeline) : BF5DContext :=
  { ctx with
    total_timelines := timelines.length,
    metadata := timelines.map (fun t => { id := t.id, pointers_count := t.pointers.length }) }

/-- Mirrors `BF5DContext::execute_command` (which never reads `self`).
`fresh` is the id the `ID_GEN` counter would hand to `clone_new_id`;
`none` models a panic (`unwrap` on a missing id or missing neighbor, or
the `panic!("undefined command direction")` arm). -/
def execute_command (fresh : Nat) (command : Command) (timelines : List Timeline) : Option (List Timeline) :=
  match command with
  | Command.MovePointer id MoveDirection.Up =>
    match timelines.findIdx? (fun t => t.id == id) with
    | none => none
    | some index =>
      match timelines.get? index with
      | none => none
      | some timeline =>
        if index ≠ 0 then
          let pointers := timeline.pointers
          let cleared := timelines.set index { timeline with pointers := [] }
          match cleared.get? (index - 1) with
          | none => none
          | some target =>
            let extended := pointers.foldl (fun (a : Timeline) p => a.extend_data p)
              { target with pointers := target.pointers ++ pointers }
            some (cleared.set (index - 1) extended)
        else
          some (timelines.set index { timeline with pointers := [] })
  | Command.MovePointer id MoveDirection.Down =>
    match timelines.findIdx? (fun t => t.id == id) with
    | none => none
    | some index =>
      match timelines.get? index with
      | none => none
      | some timeline =>
        if index ≠ 0 then
          let pointers := timeline.pointers
          let cleared := timelines.set index { timeline with pointers := [] }
          match cleared.get? (index + 1) with
          | none => none
          | some target =>
            some (cleared.set (index + 1)
              { target with pointers := target.pointers ++ pointers })
        else
          some (timelines.set index { timeline with pointers := [] })
  | Command.MovePointer _ _ => none
  | Command.SpawnAt id instruction_start =>
    match timelines.findIdx? (fun t => t.id == id) with
    | none => none
    | some index =>
      match timelines.get? index with
      | none => none
      | some timeline =>
        some ((timelines.set index
          { timeline with instruction_pointer := instruction_start }).insertIdx
            (index + 1) (timeline.clone_new_id fresh))
  | Command.RemoveAt id =>
    match timelines.findIdx? (fun t => t.id == id) with
    | none => none
    | some index =>
      if index ≠ 0 then some (timelines.eraseIdx index) else some timelines
  | Command.None => some timelines

/-! ### Basic facts about the tape primitives -/

theorem get?_extend_of_some {l : List Nat} {j : Nat} {v : Nat} (m : Nat)
    (h : l.get? j = some v) :
    (if l.length ≤ m then l ++ List.replicate (m + 1 - l.length) 0 else l).get? j = some v := by
  split
  · have hj : j < l.length := by
      by_contra hj
      rw [List.get?_eq_none.2 (le_of_not_lt hj)] at h
      exact Option.noConfusion h
    rw [List.get?_append hj]
    exact h
  · exact h

theorem get?_extend_getD (l : List Nat) (j m : Nat) :
    ((if l.length ≤ m then l ++ List.replicate (m + 1 - l.length) 0 else l).get? j).getD 0
      = (l.get? j).getD 0 := by
  split
  · rcases lt_or_ge j l.length with hj | hj
    · rw [List.get?_append hj]
    · rw [List.get?_append_right hj, List.get?_eq_none.2 hj]
      rcases lt_or_ge (j - l.length) (m + 1 - l.length) with hk | hk
      · simp [List.get?_eq_getElem?, List.getElem?_replicate, hk]
      · simp [List.get?_eq_getElem?, List.getElem?_replicate, not_lt.2 hk]
  · rfl

theorem get?_extend_self_isSome (l : List Nat) (m : Nat) :
    ((if l.length ≤ m then l ++ List.replicate (m + 1 - l.length) 0 else l).get? m).isSome := by
  have : ∀ ll : List Nat, m < ll.length → (ll.get? m).isSome := by
    intro ll hm
    rw [Option.isSome_iff_ne_none]
    intro hc
    exact absurd (List.get?_eq_none.1 hc) (not_le.2 hm)
  split
  · rename_i hle
    apply this
    rw [List.length_append, List.length_replicate]
    omega
  · rename_i hlt
    exact this l (lt_of_not_le hlt)

theorem backwards_index_inj {q i : Int} (hq : q < 0) (hi : i < 0)
    (h : backwards_index q = backwards_index i) : q = i := by
  unfold backwards_index at h
  rw [if_pos hq, if_pos hi] at h
  have h1 : (0 : Int) ≤ -(q + 1) := by omega
  have h2 : (0 : Int) ≤ -(i + 1) := by omega
  omega

theorem toNat_inj_of_nonneg {q i : Int} (hq : 0 ≤ q) (hi : 0 ≤ i)
    (h : q.toNat = i.toNat) : q = i := by omega

theorem extend_data_pointers (t : Timeline) (i : Int) :
    (t.extend_data i).pointers = t.pointers := by
  unfold Timeline.extend_data
  split <;> split <;> rfl

theorem extend_data_tape (t : Timeline) (i : Int) :
    (t.extend_data i).tape = t.tape := by
  unfold Timeline.extend_data
  split <;> split <;> rfl

theorem extend_data_ip (t : Timeline) (i : Int) :
    (t.extend_data i).instruction_pointer = t.instruction_pointer := by
  unfold Timeline.extend_data
  split <;> split <;> rfl

theorem extend_data_id (t : Timeline) (i : Int) :
    (t.extend_data i).id = t.id := by
  unfold Timeline.extend_data
  split <;> split <;> rfl

theorem extend_data_alive (t : Timeline) (i : Int) :
    (t.extend_data i).alive = t.alive := by
  unfold Timeline.extend_data
  split <;> split <;> rfl

theorem extend_data_data_neg (t : Timeline) {i : Int} (h : i < 0) :
    (t.extend_data i).data = t.data := by
  unfold Timeline.extend_data
  rw [if_pos h]
  split <;> rfl

theorem extend_data_backwards_nonneg (t : Timeline) {i : Int} (h : ¬ i < 0) :
    (t.extend_data i).data_backwards = t.data_backwards := by
  unfold Timeline.extend_data
  rw [if_neg h]
  split <;> rfl

theorem extend_data_backwards_neg (t : Timeline) {i : Int} (h : i < 0) :
    (t.extend_data i).data_backwards =
      (if t.data_backwards.length ≤ backwards_index i then
        t.data_backwards ++ List.replicate (backwards_index i + 1 - t.data_backwards.length) 0
      else t.data_backwards) := by
  unfold Timeline.extend_data
  rw [if_pos h]
  split <;> simp_all

theorem extend_data_data_nonneg (t : Timeline) {i : Int} (h : ¬ i < 0) :
    (t.extend_data i).data =
      (if t.data.length ≤ i.toNat then
        t.data ++ List.replicate (i.toNat + 1 - t.data.length) 0
      else t.data) := by
  unfold Timeline.extend_data
  rw [if_neg h]
  split <;> simp_all

theorem extend_data_data_at_of_some (t : Timeline) (i : Int) {q : Int} {v : Nat}
    (h : t.data_at q = some v) : (t.extend_data i).data_at q = some v := by
  unfold Timeline.data_at at h ⊢
  by_cases hq : q < 0
  · rw [if_pos hq] at h ⊢
    by_cases hi : i < 0
    · rw [extend_data_backwards_neg t hi]
      exact get?_extend_of_some _ h
    · rw [extend_data_backwards_nonneg t hi]
      exact h
  · rw [if_neg hq] at h ⊢
    by_cases hi : i < 0
    · rw [extend_data_data_neg t hi]
      exact h
    · rw [extend_data_data_nonneg t hi]
      exact get?_extend_of_some _ h

theorem extend_data_data_at_getD (t : Timeline) (i q : Int) :
    ((t.extend_data i).data_at q).getD 0 = (t.data_at q).getD 0 := by
  unfold Timeline.data_at
  by_cases hq : q < 0
  · rw [if_pos hq, if_pos hq]
    by_cases hi : i < 0
    · rw [extend_data_backwards_neg t hi]
      exact get?_extend_getD _ _ _
    · rw [extend_data_backwards_nonneg t hi]
  · rw [if_neg hq, if_neg hq]
    by_cases hi : i < 0
    · rw [extend_data_data_neg t hi]
    · rw [extend_data_data_nonneg t hi]
      exact get?_extend_getD _ _ _

theorem extend_data_data_at_isSome (t : Timeline) (i : Int) :
    ((t.extend_data i).data_at i).isSome := by
  unfold Timeline.data_at
  by_cases hi : i < 0
  · rw [if_pos hi, extend_data_backwards_neg t hi]
    exact get?_extend_self_isSome _ _
  · rw [if_neg hi, extend_data_data_nonneg t hi]
    exact get?_extend_self_isSome _ _

theorem extend_data_data_at_self_of_none (t : Timeline) {i : Int}
    (h : t.data_at i = none) : (t.extend_data i).data_at i = some 0 := by
  have h1 := extend_data_data_at_isSome t i
  have h2 := extend_data_data_at_getD t i i
  rw [h] at h2
  rcases Option.isSome_iff_exists.1 h1 with ⟨w, hw⟩
  rw [hw] at h2 ⊢
  simpa using h2

theorem set_raw_pointers (t : Timeline) (i : Int) (v : Nat) :
    (t.set_raw i v).pointers = t.pointers := by
  unfold Timeline.set_raw
  split <;> rfl

theorem set_raw_tape (t : Timeline) (i : Int) (v : Nat) :
    (t.set_raw i v).tape = t.tape := by
  unfold Timeline.set_raw
  split <;> rfl

theorem set_raw_ip (t : Timeline) (i : Int) (v : Nat) :
    (t.set_raw i v).instruction_pointer = t.instruction_pointer := by
  unfold Timeline.set_raw
  split <;> rfl

theorem set_raw_id (t : Timeline) (i : Int) (v : Nat) :
    (t.set_raw i v).id = t.id := by
  unfold Timeline.set_raw
  split <;> rfl

theorem set_raw_alive (t : Timeline) (i : Int) (v : Nat) :
    (t.set_raw i v).alive = t.alive := by
  unfold Timeline.set_raw
  split <;> rfl

theorem set_raw_data_at_self (t : Timeline) {i : Int} (v : Nat)
    (h : (t.data_at i).isSome) : (t.set_raw i v).data_at i = some v := by
  unfold Timeline.data_at at h ⊢
  unfold Timeline.set_raw
  by_cases hi : i < 0
  · rw [if_pos hi] at h ⊢
    simp only [if_pos hi]
    have : backwards_index i < t.data_backwards.length := by
      by_contra hc
      rw [List.get?_eq_none.2 (le_of_not_lt hc)] at h
      simp at h
    exact List.get?_set_eq_of_lt v this
  · rw [if_neg hi] at h ⊢
    simp only [if_neg hi]
    have : i.toNat < t.data.length := by
      by_contra hc
      rw [List.get?_eq_none.2 (le_of_not_lt hc)] at h
      simp at h
    exact List.get?_set_eq_of_lt v this

theorem set_raw_data_at_ne (t : Timeline) {i q : Int} (v : Nat) (h : q ≠ i) :
    (t.set_raw i v).data_at q = t.data_at q := by
  unfold Timeline.data_at Timeline.set_raw
  by_cases hq : q < 0 <;> by_cases hi : i < 0
  · simp only [if_pos hq, if_pos hi]
    refine List.get?_set_ne v _ ?_
    intro hc
    exact h (backwards_index_inj hi hq hc).symm
  · simp only [if_pos hq, if_neg hi]
  · simp only [if_neg hq, if_pos hi]
  · simp only [if_neg hq, if_neg hi]
    refine List.get?_set_ne v _ ?_
    intro hc
    have : q = i := by omega
    exact h this

theorem poke_data_at_self (t : Timeline) (i : Int) (v : Nat) :
    (t.poke i v).data_at i = some v :=
  set_raw_data_at_self _ v (extend_data_data_at_isSome t i)

theorem poke_data_at_ne_of_some (t : Timeline) {i q : Int} (v : Nat) (h : q ≠ i)
    {w : Nat} (hw : t.data_at q = some w) : (t.poke i v).data_at q = some w := by
  unfold Timeline.poke
  rw [set_raw_data_at_ne _ v h]
  exact extend_data_data_at_of_some t i hw

theorem poke_data_at_ne_getD (t : Timeline) {i q : Int} (v : Nat) (h : q ≠ i) :
    ((t.poke i v).data_at q).getD 0 = (t.data_at q).getD 0 := by
  unfold Timeline.poke
  rw [set_raw_data_at_ne _ v h]
  exact extend_data_data_at_getD t i q

theorem poke_eq (t : Timeline) (i : Int) (v : Nat) :
    (t.extend_data i).set_raw i v = t.poke i v := rfl

theorem poke_pointers (t : Timeline) (i : Int) (v : Nat) :
    (t.poke i v).pointers = t.pointers := by
  unfold Timeline.poke
  rw [set_raw_pointers, extend_data_pointers]

theorem poke_tape (t : Timeline) (i : Int) (v : Nat) :
    (t.poke i v).tape = t.tape := by
  unfold Timeline.poke
  rw [set_raw_tape, extend_data_tape]

theorem poke_ip (t : Timeline) (i : Int) (v : Nat) :
    (t.poke i v).instruction_pointer = t.instruction_pointer := by
  unfold Timeline.poke
  rw [set_raw_ip, extend_data_ip]

theorem poke_id (t : Timeline) (i : Int) (v : Nat) :
    (t.poke i v).id = t.id := by
  unfold Timeline.poke
  rw [set_raw_id, extend_data_id]

theorem data_at_ip_irrel (t : Timeline) (n : Nat) (q : Int) :
    ({ t with instruction_pointer := n } : Timeline).data_at q = t.data_at q := rfl

theorem poke_alive (t : Timeline) (i : Int) (v : Nat) :
    (t.poke i v).alive = t.alive := by
  unfold Timeline.poke
  rw [set_raw_alive, extend_data_alive]

/-! ### Facts about the per-instruction loops -/

/-- The non-data fields that `extend_data` / `set_raw` / the data loops
never touch. -/
def sameCore (u t : Timeline) : Prop :=
  u.pointers = t.pointers ∧ u.tape = t.tape ∧
    u.instruction_pointer = t.instruction_pointer ∧ u.id = t.id ∧ u.alive = t.alive

theorem sameCore_refl (t : Timeline) : sameCore t t :=
  ⟨rfl, rfl, rfl, rfl, rfl⟩

theorem sameCore_trans {a b c : Timeline} (h1 : sameCore a b) (h2 : sameCore b c) :
    sameCore a c := by
  obtain ⟨p1, t1, i1, d1, a1⟩ := h1
  obtain ⟨p2, t2, i2, d2, a2⟩ := h2
  exact ⟨p1.trans p2, t1.trans t2, i1.trans i2, d1.trans d2, a1.trans a2⟩

theorem sameCore_extend_data (t : Timeline) (i : Int) : sameCore (t.extend_data i) t :=
  ⟨extend_data_pointers t i, extend_data_tape t i, extend_data_ip t i,
    extend_data_id t i, extend_data_alive t i⟩

theorem sameCore_set_raw (t : Timeline) (i : Int) (v : Nat) : sameCore (t.set_raw i v) t :=
  ⟨set_raw_pointers t i v, set_raw_tape t i v, set_raw_ip t i v,
    set_raw_id t i v, set_raw_alive t i v⟩

theorem sameCore_poke (t : Timeline) (i : Int) (v : Nat) : sameCore (t.poke i v) t :=
  sameCore_trans (sameCore_set_raw _ i v) (sameCore_extend_data t i)

theorem incDecLoop_sameCore (f : Nat → Nat) (ps : List Int) (t : Timeline) :
    sameCore (incDecLoop f ps t).1 t := by
  induction ps generalizing t with
  | nil => exact sameCore_refl t
  | cons p ps ih =>
    simp only [incDecLoop]
    exact sameCore_trans (ih _) (sameCore_poke t p _)

theorem incDecLoop_slice_of_nodup (f : Nat → Nat) {ps : List Int} (t : Timeline)
    (h : ps.Nodup) :
    (incDecLoop f ps t).2 = ps.map (fun p => (p, (t.data_at p).getD 0)) := by
  induction ps generalizing t with
  | nil => rfl
  | cons p ps ih =>
    rcases List.nodup_cons.1 h with ⟨hp, hps⟩
    simp only [incDecLoop, List.map_cons, extend_data_data_at_getD, poke_eq]
    congr 1
    rw [ih _ hps]
    refine List.map_congr_left ?_
    intro q hq
    have hqp : q ≠ p := fun hc => hp (hc ▸ hq)
    rw [poke_data_at_ne_getD t _ hqp]

theorem rewindLoop_sameCore (s : List (Int × Nat)) (t : Timeline) :
    sameCore (rewindLoop s t) t := by
  induction s generalizing t with
  | nil => exact sameCore_refl t
  | cons pv s ih =>
    obtain ⟨p, v⟩ := pv
    exact sameCore_trans (ih _) (sameCore_poke t p v)

theorem rewindLoop_data_at_of_not_mem (s : List (Int × Nat)) (t : Timeline) {q : Int}
    {w : Nat} (h : ∀ pv ∈ s, pv.1 ≠ q) (hw : t.data_at q = some w) :
    (rewindLoop s t).data_at q = some w := by
  induction s generalizing t with
  | nil => exact hw
  | cons pv s ih =>
    obtain ⟨p, v⟩ := pv
    refine ih _ (fun x hx => h x (List.mem_cons_of_mem _ hx)) ?_
    have hpq : q ≠ p := fun hc => (h (p, v) (List.mem_cons_self _ _)) hc.symm
    exact poke_data_at_ne_of_some t v hpq hw

theorem rewindLoop_data_at_mem (s : List (Int × Nat)) (t : Timeline)
    (hnd : (s.map Prod.fst).Nodup) {p : Int} {v : Nat} (hm : (p, v) ∈ s) :
    (rewindLoop s t).data_at p = some v := by
  induction s generalizing t with
  | nil => cases hm
  | cons qw s ih =>
    obtain ⟨q, w⟩ := qw
    rw [List.map_cons] at hnd
    rcases List.nodup_cons.1 hnd with ⟨hq, hs⟩
    rcases List.mem_cons.1 hm with hh | hh
    · have h1 : p = q := congrArg Prod.fst hh
      have h2 : v = w := congrArg Prod.snd hh
      subst h1
      subst h2
      refine rewindLoop_data_at_of_not_mem s _ ?_ (poke_data_at_self t p v)
      intro pv hpv hc
      exact hq (by simpa [hc] using List.mem_map_of_mem Prod.fst hpv)
    · exact ih _ hs hh

theorem moveLoop_fst (d : Int) (ps : List Int) (t : Timeline) :
    (moveLoop d ps t).1 = ps.map (fun p => p + d) := by
  induction ps generalizing t with
  | nil => rfl
  | cons p ps ih => simp only [moveLoop, List.map_cons, ih]

theorem moveLoop_preserves_some (d : Int) (ps : List Int) (t : Timeline) {q : Int}
    {w : Nat} (h : t.data_at q = some w) : (moveLoop d ps t).2.data_at q = some w := by
  induction ps generalizing t with
  | nil => exact h
  | cons p ps ih => exact ih _ (extend_data_data_at_of_some t (p + d) h)

theorem moveLoop_mem_isSome (d : Int) (ps : List Int) (t : Timeline) {p : Int}
    (hp : p ∈ ps) : ((moveLoop d ps t).2.data_at (p + d)).isSome := by
  induction ps generalizing t with
  | nil => cases hp
  | cons q ps ih =>
    simp only [moveLoop]
    rcases List.mem_cons.1 hp with rfl | hh
    · rcases Option.isSome_iff_exists.1 (extend_data_data_at_isSome t (p + d)) with ⟨w, hw⟩
      rw [moveLoop_preserves_some d ps _ hw]
      rfl
    · exact ih _ hh

theorem moveLoop_snd_sameCore (d : Int) (ps : List Int) (t : Timeline) :
    sameCore (moveLoop d ps t).2 t := by
  induction ps generalizing t with
  | nil => exact sameCore_refl t
  | cons p ps ih => exact sameCore_trans (ih _) (sameCore_extend_data t (p + d))

theorem foldl_extend_preserves_some (ps : List Int) (t : Timeline) {q : Int} {w : Nat}
    (h : t.data_at q = some w) :
    (ps.foldl (fun (a : Timeline) p => a.extend_data p) t).data_at q = some w := by
  induction ps generalizing t with
  | nil => exact h
  | cons p ps ih => exact ih _ (extend_data_data_at_of_some t p h)

theorem foldl_extend_mem_isSome (ps : List Int) (t : Timeline) {p : Int} (hp : p ∈ ps) :
    ((ps.foldl (fun (a : Timeline) p => a.extend_data p) t).data_at p).isSome := by
  induction ps generalizing t with
  | nil => cases hp
  | cons q ps ih =>
    simp only [List.foldl_cons]
    rcases List.mem_cons.1 hp with rfl | hh
    · rcases Option.isSome_iff_exists.1 (extend_data_data_at_isSome t p) with ⟨w, hw⟩
      rw [foldl_extend_preserves_some ps _ hw]
      rfl
    · exact ih _ hh

theorem foldl_extend_pointers (ps : List Int) (t : Timeline) :
    (ps.foldl (fun (a : Timeline) p => a.extend_data p) t).pointers = t.pointers := by
  induction ps generalizing t with
  | nil => rfl
  | cons p ps ih => rw [List.foldl_cons, ih, extend_data_pointers]

/-! ### The jump guards under full definedness -/

theorem allZeroAux_of_defined (t : Timeline) {ps : List Int}
    (h : ∀ p ∈ ps, (t.data_at p).isSome) :
    allZeroAux t ps = some (decide (∀ p ∈ ps, t.data_at p = some 0)) := by
  induction ps with
  | nil => simp [allZeroAux]
  | cons p ps ih =>
    rcases Option.isSome_iff_exists.1 (h p (List.mem_cons_self ..)) with ⟨v, hv⟩
    have ih2 := ih (fun q hq => h q (List.mem_cons_of_mem _ hq))
    by_cases hz : v = 0
    · subst hz
      simp [allZeroAux, hv, ih2, List.forall_mem_cons]
    · simp [allZeroAux, hv, hz, List.forall_mem_cons]

theorem anyNonzeroAux_of_defined (t : Timeline) {ps : List Int}
    (h : ∀ p ∈ ps, (t.data_at p).isSome) :
    anyNonzeroAux t ps = some (decide (∃ p ∈ ps, t.data_at p ≠ some 0)) := by
  induction ps with
  | nil => simp [anyNonzeroAux]
  | cons p ps ih =>
    rcases Option.isSome_iff_exists.1 (h p (List.mem_cons_self ..)) with ⟨v, hv⟩
    have ih2 := ih (fun q hq => h q (List.mem_cons_of_mem _ hq))
    by_cases hz : v = 0
    · subst hz
      simp [anyNonzeroAux, hv, ih2, List.exists_mem_cons_iff]
    · simp [anyNonzeroAux, hv, hz, List.exists_mem_cons_iff]

/-! ### Generic list helpers -/

theorem lt_of_get?_some {α : Type} {l : List α} {n : Nat} {a : α}
    (h : l.get? n = some a) : n < l.length := by
  by_contra hc
  rw [List.get?_eq_none.2 (le_of_not_lt hc)] at h
  exact Option.noConfusion h

theorem get?_insertIdx_self {α : Type} (l : List α) (a : α) (n : Nat)
    (hn : n ≤ l.length) : (l.insertIdx n a).get? n = some a := by
  induction l generalizing n with
  | nil =>
    obtain rfl : n = 0 := Nat.le_zero.1 hn
    rfl
  | cons b l ih =>
    cases n with
    | zero => rfl
    | succ m =>
      rw [List.insertIdx_succ_cons]
      exact ih m (Nat.le_of_succ_le_succ hn)

theorem get?_insertIdx_of_lt {α : Type} (l : List α) (a : α) (n k : Nat)
    (h : k < n) : (l.insertIdx n a).get? k = l.get? k := by
  induction l generalizing n k with
  | nil =>
    cases n with
    | zero => exact absurd h (Nat.not_lt_zero k)
    | succ m => rw [List.insertIdx_succ_nil]
  | cons b l ih =>
    cases n with
    | zero => exact absurd h (Nat.not_lt_zero k)
    | succ m =>
      rw [List.insertIdx_succ_cons]
      cases k with
      | zero => rfl
      | succ j => exact ih m j (Nat.lt_of_succ_lt_succ h)

theorem eraseIdx_get?_zero {α : Type} (l : List α) (j : Nat) (hj : j ≠ 0) :
    (l.eraseIdx j).get? 0 = l.get? 0 := by
  cases l with
  | nil => rfl
  | cons a l =>
    cases j with
    | zero => exact absurd rfl hj
    | succ k => rfl

theorem findIdx?_bounds {α : Type} {p : α → Bool} :
    ∀ {l : List α} {s i : Nat}, List.findIdx? p l s = some i → s ≤ i ∧ i < s + l.length := by
  intro l
  induction l with
  | nil =>
    intro s i h
    rw [List.findIdx?_nil] at h
    exact Option.noConfusion h
  | cons a l ih =>
    intro s i h
    rw [List.findIdx?_cons] at h
    by_cases hp : p a
    · rw [if_pos hp] at h
      have hsi : s = i := Option.some.inj h
      subst hsi
      refine ⟨Nat.le_refl s, ?_⟩
      simp only [List.length_cons]
      omega
    · rw [if_neg hp] at h
      rcases ih h with ⟨h1, h2⟩
      refine ⟨by omega, ?_⟩
      simp only [List.length_cons]
      omega

theorem findIdx?_lt_length {α : Type} {p : α → Bool} {l : List α} {i : Nat}
    (h : l.findIdx? p = some i) : i < l.length := by
  simpa using (findIdx?_bounds h).2

/-- A run configuration used by the concrete witnesses: the given token
sequence, empty input, empty snapshot, history enabled. -/
def mkCtx (tokens : List Token) : BF5DContext :=
  { raw_program := "", tokens := tokens, program_input := [], program_output := [],
    total_timelines := 0, metadata := [], need_history := true }

/-! ### The claims -/

/-- C9: for every timeline whose `instruction_pointer` is out of range of
the token sequence, `step` returns `RemoveAt(self.id)` and leaves the
timeline's entire state and the shared context unchanged. -/
theorem update_out_of_range_C9 (t : Timeline) (ctx : BF5DContext)
    (h : ctx.tokens.get? t.instruction_pointer = none) :
    t.update ctx = some (t, ctx, Command.RemoveAt t.id) := by
  unfold Timeline.update
  rw [h]

theorem update_out_of_range_C9_witness :
    (mkCtx []).tokens.get? (Timeline.new 0).instruction_pointer = none
    ∧ (Timeline.new 0).update (mkCtx [])
        = some (Timeline.new 0, mkCtx [], Command.RemoveAt (Timeline.new 0).id) :=
  ⟨rfl, update_out_of_range_C9 (Timeline.new 0) (mkCtx []) rfl⟩

/-- C10: for every timeline whose cursor set is empty, Jump-If-Zero always
jumps to its target (the all-zero condition is vacuously true over no
cursors) and Jump-If-Not-Zero always advances by 1 (the any-nonzero
condition is vacuously false). -/
theorem jump_empty_C10 (ctx : BF5DContext) (t : Timeline) (target : Nat)
    (hemp : t.pointers = []) :
    (ctx.tokens.get? t.instruction_pointer = some (Token.Jump JumpType.IfZero target) →
      t.update ctx = some ({ t with instruction_pointer := target }, ctx, Command.None))
    ∧ (ctx.tokens.get? t.instruction_pointer = some (Token.Jump JumpType.IfNotZero target) →
      t.update ctx
        = some ({ t with instruction_pointer := t.instruction_pointer + 1 }, ctx,
            Command.None)) := by
  have hz : allZeroAux t t.pointers = some true := by
    rw [hemp]
    rfl
  have hn : anyNonzeroAux t t.pointers = some false := by
    rw [hemp]
    rfl
  constructor <;> intro h <;> unfold Timeline.update <;> rw [h] <;>
    simp only [Timeline.step_phase1, Timeline.step_phase2, Timeline.step_phase3, hz, hn,
      Option.map_some'] <;> rfl

theorem jump_empty_C10_witness :
    (Timeline.mk 3 [7] [] [] [] 0 true).pointers = []
    ∧ ((mkCtx [Token.Jump JumpType.IfZero 5]).tokens.get?
          (Timeline.mk 3 [7] [] [] [] 0 true).instruction_pointer
          = some (Token.Jump JumpType.IfZero 5) →
        (Timeline.mk 3 [7] [] [] [] 0 true).update (mkCtx [Token.Jump JumpType.IfZero 5])
          = some ({ Timeline.mk 3 [7] [] [] [] 0 true with instruction_pointer := 5 },
              mkCtx [Token.Jump JumpType.IfZero 5], Command.None))
    ∧ ((mkCtx [Token.Jump JumpType.IfZero 5]).tokens.get?
          (Timeline.mk 3 [7] [] [] [] 0 true).instruction_pointer
          = some (Token.Jump JumpType.IfNotZero 5) →
        (Timeline.mk 3 [7] [] [] [] 0 true).update (mkCtx [Token.Jump JumpType.IfZero 5])
          = some ({ Timeline.mk 3 [7] [] [] [] 0 true with
              instruction_pointer := (Timeline.mk 3 [7] [] [] [] 0 true).instruction_pointer + 1 },
              mkCtx [Token.Jump JumpType.IfZero 5], Command.None)) :=
  ⟨rfl, (jump_empty_C10 (mkCtx [Token.Jump JumpType.IfZero 5])
      (Timeline.mk 3 [7] [] [] [] 0 true) 5 rfl).1,
    (jump_empty_C10 (mkCtx [Token.Jump JumpType.IfZero 5])
      (Timeline.mk 3 [7] [] [] [] 0 true) 5 rfl).2⟩

/-- C3: for every timeline with a non-empty cursor set (all of whose
cursor cells are covered by the tape), Jump-If-Zero jumps to its target
exactly when every cursor's current cell is zero and otherwise advances by
1, and Jump-If-Not-Zero jumps exactly when at least one cursor's current
cell is nonzero and otherwise advances by 1. -/
theorem jump_C3 (ctx : BF5DContext) (t : Timeline) (target : Nat)
    (_hne : t.pointers ≠ [])
    (hdef : ∀ p ∈ t.pointers, (t.data_at p).isSome) :
    (ctx.tokens.get? t.instruction_pointer = some (Token.Jump JumpType.IfZero target) →
      t.update ctx = some
        ((if ∀ p ∈ t.pointers, t.data_at p = some 0 then
            { t with instruction_pointer := target }
          else { t with instruction_pointer := t.instruction_pointer + 1 }), ctx,
          Command.None))
    ∧ (ctx.tokens.get? t.instruction_pointer = some (Token.Jump JumpType.IfNotZero target) →
      t.update ctx = some
        ((if ∃ p ∈ t.pointers, t.data_at p ≠ some 0 then
            { t with instruction_pointer := target }
          else { t with instruction_pointer := t.instruction_pointer + 1 }), ctx,
          Command.None)) := by
  constructor <;> intro h <;> unfold Timeline.update <;> rw [h] <;>
    simp only [Timeline.step_phase1, Timeline.step_phase2, Timeline.step_phase3,
      allZeroAux_of_defined t hdef, anyNonzeroAux_of_defined t hdef, Option.map_some']
  · by_cases hP : ∀ p ∈ t.pointers, t.data_at p = some 0 <;> simp [hP]
  · by_cases hP : ∃ p ∈ t.pointers, t.data_at p ≠ some 0 <;> simp [hP]

theorem jump_C3_witness :
    (Timeline.mk 4 [0, 1] [] [0, 1] [] 0 true).pointers ≠ []
    ∧ (∀ p ∈ (Timeline.mk 4 [0, 1] [] [0, 1] [] 0 true).pointers,
        ((Timeline.mk 4 [0, 1] [] [0, 1] [] 0 true).data_at p).isSome)
    ∧ ((mkCtx [Token.Jump JumpType.IfNotZero 9]).tokens.get?
          (Timeline.mk 4 [0, 1] [] [0, 1] [] 0 true).instruction_pointer
          = some (Token.Jump JumpType.IfNotZero 9) →
        (Timeline.mk 4 [0, 1] [] [0, 1] [] 0 true).update
            (mkCtx [Token.Jump JumpType.IfNotZero 9])
          = some
            ((if ∃ p ∈ (Timeline.mk 4 [0, 1] [] [0, 1] [] 0 true).pointers,
                  (Timeline.mk 4 [0, 1] [] [0, 1] [] 0 true).data_at p ≠ some 0 then
                { Timeline.mk 4 [0, 1] [] [0, 1] [] 0 true with instruction_pointer := 9 }
              else { Timeline.mk 4 [0, 1] [] [0, 1] [] 0 true with
                instruction_pointer :=
                  (Timeline.mk 4 [0, 1] [] [0, 1] [] 0 true).instruction_pointer + 1 }),
              mkCtx [Token.Jump JumpType.IfNotZero 9], Command.None)) :=
  ⟨by decide, by decide,
    (jump_C3 (mkCtx [Token.Jump JumpType.IfNotZero 9])
      (Timeline.mk 4 [0, 1] [] [0, 1] [] 0 true) 9 (by decide) (by decide)).2⟩

/-- C2: for every timeline executing Await whose id occurs in the tick
snapshot at position `j`, the instruction pointer advances by 1 exactly
when the snapshot entry at `j + 1` records zero cursors or does not exist,
and otherwise the timeline is left completely unchanged. -/
theorem await_C2 (ctx : BF5DContext) (t : Timeline) (j : Nat)
    (htok : ctx.tokens.get? t.instruction_pointer = some Token.Await)
    (hfind : ctx.metadata.findIdx? (fun meta => meta.id == t.id) = some j) :
    ∃ t2, t.update ctx = some (t2, ctx, Command.None)
      ∧ (t2.instruction_pointer = t.instruction_pointer + 1 ↔
          (ctx.metadata.get? (j + 1) = none
            ∨ ∃ m, ctx.metadata.get? (j + 1) = some m ∧ m.pointers_count = 0))
      ∧ ((ctx.metadata.get? (j + 1) = none
            ∨ ∃ m, ctx.metadata.get? (j + 1) = some m ∧ m.pointers_count = 0) →
          t2 = { t with instruction_pointer := t.instruction_pointer + 1 })
      ∧ (¬ (ctx.metadata.get? (j + 1) = none
            ∨ ∃ m, ctx.metadata.get? (j + 1) = some m ∧ m.pointers_count = 0) →
          t2 = t) := by
  unfold Timeline.update
  rw [htok]
  simp only [Timeline.step_phase1, Timeline.step_phase2, Timeline.step_phase3, hfind]
  cases hmeta : ctx.metadata.get? (j + 1) with
  | none =>
    refine ⟨{ t with instruction_pointer := t.instruction_pointer + 1 }, rfl, ?_, ?_, ?_⟩ <;>
      simp
  | some m =>
    dsimp only
    by_cases hz : m.pointers_count = 0
    · rw [if_pos hz]
      refine ⟨{ t with instruction_pointer := t.instruction_pointer + 1 }, rfl, ?_, ?_, ?_⟩ <;>
        simp [hz]
    · rw [if_neg hz]
      refine ⟨t, rfl, ?_, ?_, ?_⟩
      · simp [hz]
      · intro hc
        rcases hc with hc | ⟨m2, hm2, hz2⟩
        · exact absurd hc Option.noConfusion
        · rw [Option.some.injEq] at hm2
          exact absurd (hm2 ▸ hz2) hz
      · intro
        rfl

/-- The snapshot used by the Await witness: the stepping timeline (id 0)
followed by a neighbor with no cursors. -/
def awaitCtx : BF5DContext :=
  { mkCtx [Token.Await] with metadata := [TimelineMeta.mk 0 1, TimelineMeta.mk 7 0] }

theorem await_C2_witness :
    (awaitCtx.tokens.get? (Timeline.new 0).instruction_pointer = some Token.Await)
    ∧ (awaitCtx.metadata.findIdx? (fun meta => meta.id == (Timeline.new 0).id) = some 0)
    ∧ (∃ t2, (Timeline.new 0).update awaitCtx = some (t2, awaitCtx, Command.None)
      ∧ (t2.instruction_pointer = (Timeline.new 0).instruction_pointer + 1 ↔
          (awaitCtx.metadata.get? (0 + 1) = none
            ∨ ∃ m, awaitCtx.metadata.get? (0 + 1) = some m ∧ m.pointers_count = 0))
      ∧ ((awaitCtx.metadata.get? (0 + 1) = none
            ∨ ∃ m, awaitCtx.metadata.get? (0 + 1) = some m ∧ m.pointers_count = 0) →
          t2 = { Timeline.new 0 with
            instruction_pointer := (Timeline.new 0).instruction_pointer + 1 })
      ∧ (¬ (awaitCtx.metadata.get? (0 + 1) = none
            ∨ ∃ m, awaitCtx.metadata.get? (0 + 1) = some m ∧ m.pointers_count = 0) →
          t2 = Timeline.new 0)) :=
  ⟨rfl, rfl, await_C2 awaitCtx (Timeline.new 0) 0 rfl rfl⟩

/-- C8, counterexample: a timeline with no cursors executing Increment
with history enabled pushes an empty time-slice — the undo log grows from
`[]` to `[[]]`, refuting "the undo log is unchanged when there are no
cursors". -/
theorem push_empty_slice_C8_counterexample :
    (Timeline.mk 0 [5] [] [] [] 0 true).update (mkCtx [Token.Update UpdateType.Increment])
      = some (Timeline.mk 0 [5] [] [] [[]] 1 true,
          mkCtx [Token.Update UpdateType.Increment], Command.None)
    ∧ (Timeline.mk 0 [5] [] [] [[]] 1 true).tape ≠ (Timeline.mk 0 [5] [] [] [] 0 true).tape := by
  constructor
  · rfl
  · decide

/-- C8, amended: for every timeline whose cursor set is empty, executing
Increment, Decrement, or Read with history enabled pushes exactly one
EMPTY time-slice onto the undo log (leaving data, cursors and the context
unchanged and advancing the instruction pointer); the undo log does grow
by one (empty) slice. -/
theorem push_empty_slice_C8_amended (ctx : BF5DContext) (t : Timeline)
    (hp : t.pointers = []) (hh : ctx.need_history = true) :
    (∀ ty : UpdateType, ctx.tokens.get? t.instruction_pointer = some (Token.Update ty) →
      t.update ctx = some
        ({ t with
            tape := t.tape ++ [[]],
            instruction_pointer := t.instruction_pointer + 1 }, ctx, Command.None))
    ∧ (ctx.tokens.get? t.instruction_pointer = some Token.Read →
      t.update ctx = some
        ({ t with
            tape := t.tape ++ [[]],
            instruction_pointer := t.instruction_pointer + 1 }, ctx, Command.None)) := by
  constructor
  · intro ty h
    unfold Timeline.update
    rw [h]
    cases ty <;>
      simp only [Timeline.step_phase1, Timeline.step_phase2, Timeline.step_phase3, hp, hh,
        incDecLoop, if_true]
  · intro h
    obtain ⟨rp, tk, pin, pout, tt, md, nh⟩ := ctx
    dsimp only at hh h ⊢
    subst hh
    unfold Timeline.update
    rw [h]
    simp only [Timeline.step_phase1, Timeline.step_phase2, Timeline.step_phase3, hp,
      readLoop]
    rfl

theorem push_empty_slice_C8_witness :
    (Timeline.mk 2 [5] [] [] [] 0 true).pointers = []
    ∧ (mkCtx [Token.Read]).need_history = true
    ∧ ((mkCtx [Token.Read]).tokens.get? (Timeline.mk 2 [5] [] [] [] 0 true).instruction_pointer
          = some Token.Read →
        (Timeline.mk 2 [5] [] [] [] 0 true).update (mkCtx [Token.Read])
          = some
            ({ Timeline.mk 2 [5] [] [] [] 0 true with
                tape := [[]],
                instruction_pointer := 1 }, mkCtx [Token.Read], Command.None)) :=
  ⟨rfl, rfl,
    (push_empty_slice_C8_amended (mkCtx [Token.Read])
      (Timeline.mk 2 [5] [] [] [] 0 true) rfl rfl).2⟩

theorem readLoop_sameCore (ps : List Int) (t : Timeline) (input : List Nat) :
    sameCore (readLoop ps t input).1 t := by
  induction ps generalizing t input with
  | nil => exact sameCore_refl t
  | cons p ps ih =>
    simp only [readLoop]
    exact sameCore_trans (ih _ _) (sameCore_poke t p _)

theorem readLoop_slice_of_nodup {ps : List Int} (t : Timeline) (input : List Nat)
    (h : ps.Nodup) :
    (readLoop ps t input).2.2 = ps.map (fun p => (p, (t.data_at p).getD 0)) := by
  induction ps generalizing t input with
  | nil => rfl
  | cons p ps ih =>
    rcases List.nodup_cons.1 h with ⟨hp, hps⟩
    simp only [readLoop, List.map_cons, extend_data_data_at_getD, poke_eq]
    congr 1
    rw [ih _ _ hps]
    refine List.map_congr_left ?_
    intro q hq
    have hqp : q ≠ p := fun hc => hp (hc ▸ hq)
    rw [poke_data_at_ne_getD t _ hqp]

theorem slice_fst_nodup {slice : List (Int × Nat)} {t : Timeline}
    (hs : slice = t.pointers.map (fun p => (p, (t.data_at p).getD 0)))
    (hnodup : t.pointers.Nodup) : (slice.map Prod.fst).Nodup := by
  have hfst : slice.map Prod.fst = t.pointers := by
    rw [hs, List.map_map]
    simp [Function.comp_def]
  rw [hfst]
  exact hnodup

theorem push_then_rewind (cx1 : BF5DContext) (t t1 : Timeline) (slice : List (Int × Nat))
    (htok1 : cx1.tokens.get? t1.instruction_pointer = some Token.Rewind)
    (htape1 : t1.tape = t.tape ++ [slice])
    (hs : slice = t.pointers.map (fun p => (p, (t.data_at p).getD 0)))
    (hnodup : t.pointers.Nodup) :
    ∃ t2, t1.update cx1 = some (t2, cx1, Command.None)
      ∧ t2.tape = t.tape
      ∧ ∀ p ∈ t.pointers, t2.data_at p = some ((t.data_at p).getD 0) := by
  have h2 : t1.update cx1 = some
      ({ rewindLoop slice { t1 with tape := t.tape } with
        instruction_pointer :=
          (rewindLoop slice { t1 with tape := t.tape }).instruction_pointer + 1 },
        cx1, Command.None) := by
    unfold Timeline.update
    rw [htok1]
    simp only [Timeline.step_phase1, Timeline.step_phase2, Timeline.step_phase3, htape1]
    rw [List.getLast?_concat, List.dropLast_concat]
  obtain ⟨wp, wt, wi, wd, wa⟩ := rewindLoop_sameCore slice { t1 with tape := t.tape }
  refine ⟨_, h2, ?_, ?_⟩
  · dsimp only
    rw [wt]
  · intro p hp
    have hnd := slice_fst_nodup hs hnodup
    have hmem : (p, (t.data_at p).getD 0) ∈ slice := by
      rw [hs]
      exact List.mem_map_of_mem _ hp
    rw [data_at_ip_irrel]
    exact rewindLoop_data_at_mem _ _ hnd hmem

/-- C7, counterexample: with DUPLICATED cursor offsets the slice pushed by
Increment holds two entries for offset 0 — `(0, 5)` then `(0, 6)` — and
Rewind replays them in recorded order, so the cell ends at 6, NOT at its
pre-mutation value 5.  The cell value before the mutating step was 5; after
Increment-then-Rewind it is 6. -/
theorem rewind_C7_counterexample :
    ((Timeline.mk 0 [5] [] [0, 0] [] 0 true).update
        (mkCtx [Token.Update UpdateType.Increment, Token.Rewind])).bind
        (fun r => r.1.update r.2.1)
      = some (Timeline.mk 0 [6] [] [0, 0] [] 2 true,
          mkCtx [Token.Update UpdateType.Increment, Token.Rewind], Command.None)
    ∧ (Timeline.mk 0 [5] [] [0, 0] [] 0 true).data_at 0 = some 5
    ∧ (Timeline.mk 0 [6] [] [0, 0] [] 2 true).data_at 0 = some 6
    ∧ (6 : Nat) ≠ 5 := by
  refine ⟨rfl, rfl, rfl, by decide⟩

/-- C7, amended: for every time-slice pushed onto the undo log when
history is enabled — by Increment, Decrement, or Read — over
PAIRWISE-DISTINCT cursor offsets, executing Rewind immediately afterwards
pops exactly that one slice and restores every recorded offset to the
value it held immediately before the mutating step; with duplicated
offsets the entries are replayed in recorded order so the cell ends at the
last-recorded value instead (see the counterexample); executing Rewind
when the undo log is empty changes nothing except the usual
instruction-pointer advance. -/
theorem rewind_C7_amended (ctx : BF5DContext) (t : Timeline)
    (hh : ctx.need_history = true)
    (hrew : ctx.tokens.get? (t.instruction_pointer + 1) = some Token.Rewind)
    (hnodup : t.pointers.Nodup) :
    (ctx.tokens.get? t.instruction_pointer = some (Token.Update UpdateType.Increment) →
      ∃ t1 t2, t.update ctx = some (t1, ctx, Command.None)
        ∧ t1.tape = t.tape ++ [t.pointers.map (fun p => (p, (t.data_at p).getD 0))]
        ∧ t1.update ctx = some (t2, ctx, Command.None)
        ∧ t2.tape = t.tape
        ∧ (∀ p ∈ t.pointers, t2.data_at p = some ((t.data_at p).getD 0)))
    ∧ (ctx.tokens.get? t.instruction_pointer = some (Token.Update UpdateType.Decrement) →
      ∃ t1 t2, t.update ctx = some (t1, ctx, Command.None)
        ∧ t1.tape = t.tape ++ [t.pointers.map (fun p => (p, (t.data_at p).getD 0))]
        ∧ t1.update ctx = some (t2, ctx, Command.None)
        ∧ t2.tape = t.tape
        ∧ (∀ p ∈ t.pointers, t2.data_at p = some ((t.data_at p).getD 0)))
    ∧ (ctx.tokens.get? t.instruction_pointer = some Token.Read →
      ∃ t1 ctx1 t2, t.update ctx = some (t1, ctx1, Command.None)
        ∧ ctx1.tokens = ctx.tokens
        ∧ t1.tape = t.tape ++ [t.pointers.map (fun p => (p, (t.data_at p).getD 0))]
        ∧ t1.update ctx1 = some (t2, ctx1, Command.None)
        ∧ t2.tape = t.tape
        ∧ (∀ p ∈ t.pointers, t2.data_at p = some ((t.data_at p).getD 0)))
    ∧ (∀ (u : Timeline) (cx : BF5DContext),
        cx.tokens.get? u.instruction_pointer = some Token.Rewind → u.tape = [] →
        u.update cx = some ({ u with instruction_pointer := u.instruction_pointer + 1 },
          cx, Command.None)) := by
  refine ⟨?_, ?_, ?_, ?_⟩
  · intro hstep
    obtain ⟨hcp, hct, hci, hcd, hca⟩ :=
      incDecLoop_sameCore (fun v => (v + 1) % 256) t.pointers t
    have hslice := incDecLoop_slice_of_nodup (fun v => (v + 1) % 256) t hnodup
    rcases hr : incDecLoop (fun v => (v + 1) % 256) t.pointers t with ⟨ti, slice⟩
    rw [hr] at hcp hct hci hcd hca hslice
    dsimp only at hcp hct hci hcd hca hslice
    have h1 : t.update ctx
        = some ({ ti with
            tape := ti.tape ++ [slice],
            instruction_pointer := ti.instruction_pointer + 1 }, ctx, Command.None) := by
      unfold Timeline.update
      rw [hstep]
      simp only [Timeline.step_phase1, Timeline.step_phase2, Timeline.step_phase3, hh,
        if_true, hr]
    have htok1 : ctx.tokens.get? ({ ti with
        tape := ti.tape ++ [slice],
        instruction_pointer := ti.instruction_pointer + 1 } : Timeline).instruction_pointer
        = some Token.Rewind := by
      dsimp only
      rw [hci]
      exact hrew
    have htape1 : ({ ti with
        tape := ti.tape ++ [slice],
        instruction_pointer := ti.instruction_pointer + 1 } : Timeline).tape
        = t.tape ++ [slice] := by
      dsimp only
      rw [hct]
    obtain ⟨t2, h2, h2tape, h2data⟩ :=
      push_then_rewind ctx t _ slice htok1 htape1 hslice hnodup
    refine ⟨_, t2, h1, ?_, h2, h2tape, h2data⟩
    rw [htape1, hslice]
  · intro hstep
    obtain ⟨hcp, hct, hci, hcd, hca⟩ :=
      incDecLoop_sameCore (fun v => (v + 255) % 256) t.pointers t
    have hslice := incDecLoop_slice_of_nodup (fun v => (v + 255) % 256) t hnodup
    rcases hr : incDecLoop (fun v => (v + 255) % 256) t.pointers t with ⟨ti, slice⟩
    rw [hr] at hcp hct hci hcd hca hslice
    dsimp only at hcp hct hci hcd hca hslice
    have h1 : t.update ctx
        = some ({ ti with
            tape := ti.tape ++ [slice],
            instruction_pointer := ti.instruction_pointer + 1 }, ctx, Command.None) := by
      unfold Timeline.update
      rw [hstep]
      simp only [Timeline.step_phase1, Timeline.step_phase2, Timeline.step_phase3, hh,
        if_true, hr]
    have htok1 : ctx.tokens.get? ({ ti with
        tape := ti.tape ++ [slice],
        instruction_pointer := ti.instruction_pointer + 1 } : Timeline).instruction_pointer
        = some Token.Rewind := by
      dsimp only
      rw [hci]
      exact hrew
    have htape1 : ({ ti with
        tape := ti.tape ++ [slice],
        instruction_pointer := ti.instruction_pointer + 1 } : Timeline).tape
        = t.tape ++ [slice] := by
      dsimp only
      rw [hct]
    obtain ⟨t2, h2, h2tape, h2data⟩ :=
      push_then_rewind ctx t _ slice htok1 htape1 hslice hnodup
    refine ⟨_, t2, h1, ?_, h2, h2tape, h2data⟩
    rw [htape1, hslice]
  · intro hstep
    obtain ⟨hcp, hct, hci, hcd, hca⟩ := readLoop_sameCore t.pointers t ctx.program_input
    have hslice := readLoop_slice_of_nodup t ctx.program_input hnodup
    rcases hr : readLoop t.pointers t ctx.program_input with ⟨ti, rest, slice⟩
    rw [hr] at hcp hct hci hcd hca hslice
    dsimp only at hcp hct hci hcd hca hslice
    have h1 : t.update ctx
        = some ({ ti with
            tape := ti.tape ++ [slice],
            instruction_pointer := ti.instruction_pointer + 1 },
          { ctx with program_input := rest }, Command.None) := by
      unfold Timeline.update
      rw [hstep]
      simp only [Timeline.step_phase1, Timeline.step_phase2, Timeline.step_phase3, hh,
        if_true, hr]
    have htok1 : ({ ctx with program_input := rest } : BF5DContext).tokens.get?
        ({ ti with
          tape := ti.tape ++ [slice],
          instruction_pointer := ti.instruction_pointer + 1 } : Timeline).instruction_pointer
        = some Token.Rewind := by
      dsimp only
      rw [hci]
      exact hrew
    have htape1 : ({ ti with
        tape := ti.tape ++ [slice],
        instruction_pointer := ti.instruction_pointer + 1 } : Timeline).tape
        = t.tape ++ [slice] := by
      dsimp only
      rw [hct]
    obtain ⟨t2, h2, h2tape, h2data⟩ :=
      push_then_rewind { ctx with program_input := rest } t _ slice htok1 htape1 hslice
        hnodup
    refine ⟨_, { ctx with program_input := rest }, t2, h1, rfl, ?_, h2, h2tape, h2data⟩
    rw [htape1, hslice]
  · intro u cx htok htape
    unfold Timeline.update
    rw [htok]
    simp only [Timeline.step_phase1, Timeline.step_phase2, Timeline.step_phase3, htape,
      List.getLast?_nil]

/-- The fixture for the C7 witness: one cursor at offset 0 over the
program `[Increment, Rewind]`. -/
def c7ctx : BF5DContext := mkCtx [Token.Update UpdateType.Increment, Token.Rewind]

/-- The fixture timeline for the C7 witness. -/
def c7t : Timeline := Timeline.mk 9 [3] [] [0] [] 0 true

theorem rewind_C7_amended_witness :
    c7ctx.need_history = true
    ∧ c7ctx.tokens.get? (c7t.instruction_pointer + 1) = some Token.Rewind
    ∧ c7t.pointers.Nodup
    ∧ ((c7ctx.tokens.get? c7t.instruction_pointer
          = some (Token.Update UpdateType.Increment) →
        ∃ t1 t2, c7t.update c7ctx = some (t1, c7ctx, Command.None)
          ∧ t1.tape = c7t.tape ++ [c7t.pointers.map (fun p => (p, (c7t.data_at p).getD 0))]
          ∧ t1.update c7ctx = some (t2, c7ctx, Command.None)
          ∧ t2.tape = c7t.tape
          ∧ (∀ p ∈ c7t.pointers, t2.data_at p = some ((c7t.data_at p).getD 0)))
      ∧ (c7ctx.tokens.get? c7t.instruction_pointer
          = some (Token.Update UpdateType.Decrement) →
        ∃ t1 t2, c7t.update c7ctx = some (t1, c7ctx, Command.None)
          ∧ t1.tape = c7t.tape ++ [c7t.pointers.map (fun p => (p, (c7t.data_at p).getD 0))]
          ∧ t1.update c7ctx = some (t2, c7ctx, Command.None)
          ∧ t2.tape = c7t.tape
          ∧ (∀ p ∈ c7t.pointers, t2.data_at p = some ((c7t.data_at p).getD 0)))
      ∧ (c7ctx.tokens.get? c7t.instruction_pointer = some Token.Read →
        ∃ t1 ctx1 t2, c7t.update c7ctx = some (t1, ctx1, Command.None)
          ∧ ctx1.tokens = c7ctx.tokens
          ∧ t1.tape = c7t.tape ++ [c7t.pointers.map (fun p => (p, (c7t.data_at p).getD 0))]
          ∧ t1.update ctx1 = some (t2, ctx1, Command.None)
          ∧ t2.tape = c7t.tape
          ∧ (∀ p ∈ c7t.pointers, t2.data_at p = some ((c7t.data_at p).getD 0)))
      ∧ (∀ (u : Timeline) (cx : BF5DContext),
          cx.tokens.get? u.instruction_pointer = some Token.Rewind → u.tape = [] →
          u.update cx = some ({ u with instruction_pointer := u.instruction_pointer + 1 },
            cx, Command.None))) :=
  ⟨rfl, rfl, by decide, rewind_C7_amended c7ctx c7t rfl rfl (by decide)⟩

/-- C1: stepping a timeline at a `Spawn target` token advances its
instruction pointer by 1 and emits `SpawnAt(id, target)`; applying that
command to the population sets the original's instruction pointer to
`target` and inserts, immediately after the original, a clone that agrees
with the original on tape (`data` / `data_backwards`), cursors, and undo
log, whose instruction pointer is the original's post-step (pre-override)
value `p + 1`, and whose id is the fresh id, distinct from every id in the
resulting population's other members. -/
theorem spawn_C1 (ctx : BF5DContext) (ts : List Timeline) (i p target fresh : Nat)
    (t : Timeline)
    (hip : t.instruction_pointer = p + 1)
    (htok : ctx.tokens.get? p = some (Token.Spawn target))
    (hfind : ts.findIdx? (fun u => u.id == t.id) = some i)
    (hget : ts.get? i = some t)
    (hfresh : ∀ u ∈ ts, u.id ≠ fresh) :
    ({ t with instruction_pointer := p }).update ctx
        = some (t, ctx, Command.SpawnAt t.id target)
    ∧ execute_command fresh (Command.SpawnAt t.id target) ts
        = some ((ts.set i { t with instruction_pointer := target }).insertIdx (i + 1)
            { t with id := fresh })
    ∧ ((ts.set i { t with instruction_pointer := target }).insertIdx (i + 1)
        { t with id := fresh }).get? i = some { t with instruction_pointer := target }
    ∧ ((ts.set i { t with instruction_pointer := target }).insertIdx (i + 1)
        { t with id := fresh }).get? (i + 1) = some { t with id := fresh }
    ∧ ({ t with id := fresh } : Timeline).instruction_pointer = p + 1
    ∧ ({ t with id := fresh } : Timeline).data = t.data
    ∧ ({ t with id := fresh } : Timeline).data_backwards = t.data_backwards
    ∧ ({ t with id := fresh } : Timeline).pointers = t.pointers
    ∧ ({ t with id := fresh } : Timeline).tape = t.tape
    ∧ ∀ u ∈ ts.set i { t with instruction_pointer := target }, u.id ≠ fresh := by
  have heta : ({ t with instruction_pointer := p + 1 } : Timeline) = t := by
    rw [← hip]
  refine ⟨?_, ?_, ?_, ?_, hip, rfl, rfl, rfl, rfl, ?_⟩
  · unfold Timeline.update
    dsimp only
    rw [htok]
    simp only [Timeline.step_phase1, Timeline.step_phase2, Timeline.step_phase3]
    rw [heta]
  · unfold execute_command
    dsimp only
    rw [hfind]
    dsimp only
    rw [hget]
    rfl
  · rw [get?_insertIdx_of_lt _ _ _ _ (Nat.lt_succ_self i)]
    exact List.get?_set_eq_of_lt _ (lt_of_get?_some hget)
  · refine get?_insertIdx_self _ _ _ ?_
    rw [List.length_set]
    exact lt_of_get?_some hget
  · intro u hu
    rcases List.mem_or_eq_of_mem_set hu with h | h
    · exact hfresh u h
    · rw [h]
      exact hfresh t (List.get?_mem hget)

/-- The fixture timeline for the C1 witness: its instruction pointer is
already the post-step value 1. -/
def c1t : Timeline := Timeline.mk 0 [0] [] [0] [] 1 true

/-- The fixture context for the C1 witness: one `Spawn 4` token. -/
def c1ctx : BF5DContext := mkCtx [Token.Spawn 4]

theorem spawn_C1_witness :
    c1t.instruction_pointer = 0 + 1
    ∧ c1ctx.tokens.get? 0 = some (Token.Spawn 4)
    ∧ [c1t].findIdx? (fun u => u.id == c1t.id) = some 0
    ∧ [c1t].get? 0 = some c1t
    ∧ (∀ u ∈ [c1t], u.id ≠ 5)
    ∧ (({ c1t with instruction_pointer := 0 }).update c1ctx
        = some (c1t, c1ctx, Command.SpawnAt c1t.id 4)
      ∧ execute_command 5 (Command.SpawnAt c1t.id 4) [c1t]
          = some (([c1t].set 0 { c1t with instruction_pointer := 4 }).insertIdx (0 + 1)
              { c1t with id := 5 })
      ∧ (([c1t].set 0 { c1t with instruction_pointer := 4 }).insertIdx (0 + 1)
          { c1t with id := 5 }).get? 0 = some { c1t with instruction_pointer := 4 }
      ∧ (([c1t].set 0 { c1t with instruction_pointer := 4 }).insertIdx (0 + 1)
          { c1t with id := 5 }).get? (0 + 1) = some { c1t with id := 5 }
      ∧ ({ c1t with id := 5 } : Timeline).instruction_pointer = 0 + 1
      ∧ ({ c1t with id := 5 } : Timeline).data = c1t.data
      ∧ ({ c1t with id := 5 } : Timeline).data_backwards = c1t.data_backwards
      ∧ ({ c1t with id := 5 } : Timeline).pointers = c1t.pointers
      ∧ ({ c1t with id := 5 } : Timeline).tape = c1t.tape
      ∧ ∀ u ∈ [c1t].set 0 { c1t with instruction_pointer := 4 }, u.id ≠ 5) :=
  ⟨rfl, rfl, rfl, rfl, by decide,
    spawn_C1 c1ctx [c1t] 0 0 4 5 c1t rfl rfl rfl rfl (by decide)⟩

theorem foldl_extend_id (ps : List Int) (t : Timeline) :
    (ps.foldl (fun (a : Timeline) p => a.extend_data p) t).id = t.id := by
  induction ps generalizing t with
  | nil => rfl
  | cons p ps ih => rw [List.foldl_cons, ih, extend_data_id]

theorem get?_zero_map_id_set (ts : List Timeline) (n : Nat) (x : Timeline)
    (hid : ∀ u, ts.get? n = some u → x.id = u.id) :
    ((ts.set n x).get? 0).map Timeline.id = (ts.get? 0).map Timeline.id := by
  by_cases h0 : n = 0
  · subst h0
    cases hg : ts.get? 0 with
    | none =>
      have hlen : ts.length = 0 := Nat.le_zero.1 (List.get?_eq_none.1 hg)
      have : ts = [] := List.length_eq_zero.1 hlen
      subst this
      rfl
    | some u =>
      have h1 : (ts.set 0 x).get? 0 = some x :=
        List.get?_set_eq_of_lt _ (lt_of_get?_some hg)
      rw [h1]
      exact congrArg some (hid u hg)
  · rw [List.get?_set_ne _ _ (fun hc => h0 hc)]

theorem data_at_pointers_irrel (t : Timeline) (ps : List Int) (q : Int) :
    ({ t with pointers := ps } : Timeline).data_at q = t.data_at q := rfl

theorem execute_up_eq (fresh : Nat) (ts : List Timeline) (id i : Nat) (tl target : Timeline)
    (hfind : ts.findIdx? (fun u => u.id == id) = some i)
    (hget : ts.get? i = some tl) (hi : i ≠ 0)
    (htarget : ts.get? (i - 1) = some target) :
    execute_command fresh (Command.MovePointer id MoveDirection.Up) ts
      = some ((ts.set i { tl with pointers := [] }).set (i - 1)
          (tl.pointers.foldl (fun (a : Timeline) p => a.extend_data p)
            { target with pointers := target.pointers ++ tl.pointers })) := by
  have hi1 : i ≠ i - 1 := by omega
  unfold execute_command
  dsimp only
  rw [hfind]
  dsimp only
  rw [hget]
  dsimp only
  rw [if_pos hi, List.get?_set_ne _ _ hi1, htarget]

theorem execute_down_eq (fresh : Nat) (ts : List Timeline) (id i : Nat) (tl target : Timeline)
    (hfind : ts.findIdx? (fun u => u.id == id) = some i)
    (hget : ts.get? i = some tl) (hi : i ≠ 0)
    (htarget : ts.get? (i + 1) = some target) :
    execute_command fresh (Command.MovePointer id MoveDirection.Down) ts
      = some ((ts.set i { tl with pointers := [] }).set (i + 1)
          { target with pointers := target.pointers ++ tl.pointers }) := by
  have hi1 : i ≠ i + 1 := by omega
  unfold execute_command
  dsimp only
  rw [hfind]
  dsimp only
  rw [hget]
  dsimp only
  rw [if_pos hi, List.get?_set_ne _ _ hi1, htarget]

/-- C5: applying `MovePointer` for the timeline at population index `i`:
with direction Up and `i ≠ 0` its cursors are appended to the timeline at
`i - 1` (whose tape is extended to cover each moved offset) and its own
cursor set is cleared; with direction Down and `i ≠ 0` its cursors are
appended to the timeline at `i + 1` without tape extension and its own
cursor set is cleared; with `i = 0` (either direction) its cursor set is
cleared and nothing is transferred. -/
theorem move_pointer_C5 (fresh : Nat) (ts : List Timeline) (id i : Nat) (tl : Timeline)
    (hfind : ts.findIdx? (fun u => u.id == id) = some i)
    (hget : ts.get? i = some tl) :
    (i ≠ 0 → ∀ target, ts.get? (i - 1) = some target →
      execute_command fresh (Command.MovePointer id MoveDirection.Up) ts
          = some ((ts.set i { tl with pointers := [] }).set (i - 1)
              (tl.pointers.foldl (fun (a : Timeline) p => a.extend_data p)
                { target with pointers := target.pointers ++ tl.pointers }))
        ∧ (tl.pointers.foldl (fun (a : Timeline) p => a.extend_data p)
            { target with pointers := target.pointers ++ tl.pointers }).pointers
          = target.pointers ++ tl.pointers)
    ∧ (i ≠ 0 → ∀ target, ts.get? (i + 1) = some target →
      execute_command fresh (Command.MovePointer id MoveDirection.Down) ts
        = some ((ts.set i { tl with pointers := [] }).set (i + 1)
            { target with pointers := target.pointers ++ tl.pointers }))
    ∧ (i = 0 →
      execute_command fresh (Command.MovePointer id MoveDirection.Up) ts
          = some (ts.set i { tl with pointers := [] })
        ∧ execute_command fresh (Command.MovePointer id MoveDirection.Down) ts
          = some (ts.set i { tl with pointers := [] })) := by
  refine ⟨?_, ?_, ?_⟩
  · intro hi target htarget
    exact ⟨execute_up_eq fresh ts id i tl target hfind hget hi htarget,
      foldl_extend_pointers _ _⟩
  · intro hi target htarget
    exact execute_down_eq fresh ts id i tl target hfind hget hi htarget
  · intro hi
    subst hi
    constructor <;>
      · unfold execute_command
        dsimp only
        rw [hfind]
        dsimp only
        rw [hget]
        dsimp only
        rw [if_neg (by simp)]

/-- The fixture population for the C5 witness: a root above a mover whose
single cursor sits at offset 2 (not covered by either tape). -/
def c5a : Timeline := Timeline.mk 0 [1] [] [0] [] 0 true

/-- The mover for the C5 witness (population index 1). -/
def c5b : Timeline := Timeline.mk 1 [4] [] [2] [] 0 true

theorem move_pointer_C5_witness :
    [c5a, c5b].findIdx? (fun u => u.id == 1) = some 1
    ∧ [c5a, c5b].get? 1 = some c5b
    ∧ ((1 ≠ 0 → ∀ target, [c5a, c5b].get? (1 - 1) = some target →
        execute_command 9 (Command.MovePointer 1 MoveDirection.Up) [c5a, c5b]
            = some (([c5a, c5b].set 1 { c5b with pointers := [] }).set (1 - 1)
                (c5b.pointers.foldl (fun (a : Timeline) p => a.extend_data p)
                  { target with pointers := target.pointers ++ c5b.pointers }))
          ∧ (c5b.pointers.foldl (fun (a : Timeline) p => a.extend_data p)
              { target with pointers := target.pointers ++ c5b.pointers }).pointers
            = target.pointers ++ c5b.pointers)
      ∧ (1 ≠ 0 → ∀ target, [c5a, c5b].get? (1 + 1) = some target →
        execute_command 9 (Command.MovePointer 1 MoveDirection.Down) [c5a, c5b]
          = some (([c5a, c5b].set 1 { c5b with pointers := [] }).set (1 + 1)
              { target with pointers := target.pointers ++ c5b.pointers }))
      ∧ (1 = 0 →
        execute_command 9 (Command.MovePointer 1 MoveDirection.Up) [c5a, c5b]
            = some ([c5a, c5b].set 1 { c5b with pointers := [] })
          ∧ execute_command 9 (Command.MovePointer 1 MoveDirection.Down) [c5a, c5b]
            = some ([c5a, c5b].set 1 { c5b with pointers := [] }))) :=
  ⟨rfl, rfl, move_pointer_C5 9 [c5a, c5b] 1 1 c5b rfl rfl⟩

/-- C6: applying `RemoveAt(id)` deletes the timeline with that id unless
it sits at population index 0; consequently no command ever changes the id
of the timeline at index 0 (the root is never removed) and command
application never shrinks a non-empty population below size 1. -/
theorem root_protection_C6 (fresh : Nat) (cmd : Command) (ts ts' : List Timeline)
    (hne : ts ≠ [])
    (h : execute_command fresh cmd ts = some ts') :
    1 ≤ ts'.length
    ∧ (ts'.get? 0).map Timeline.id = (ts.get? 0).map Timeline.id
    ∧ (∀ id j, cmd = Command.RemoveAt id → ts.findIdx? (fun u => u.id == id) = some j →
        (j ≠ 0 → ts' = ts.eraseIdx j) ∧ (j = 0 → ts' = ts)) := by
  have hpos : 0 < ts.length := List.length_pos.2 hne
  cases cmd with
  | None =>
    obtain rfl : ts = ts' := Option.some.inj h
    exact ⟨hpos, rfl, fun id j hcmd => absurd hcmd (by simp)⟩
  | RemoveAt id =>
    unfold execute_command at h
    dsimp only at h
    rcases hfi : ts.findIdx? (fun u => u.id == id) with _ | j <;> rw [hfi] at h
    · exact absurd h (by simp)
    · dsimp only at h
      by_cases hj : j = 0
      · rw [if_neg (by simpa using hj)] at h
        obtain rfl : ts = ts' := Option.some.inj h
        refine ⟨hpos, rfl, ?_⟩
        intro id' j' hcmd hfind'
        obtain rfl : id = id' := by
          cases hcmd
          rfl
        rw [hfi] at hfind'
        obtain rfl : j = j' := Option.some.inj hfind'
        subst hj
        exact ⟨fun hc => absurd rfl hc, fun _ => rfl⟩
      · rw [if_pos hj] at h
        obtain rfl : ts.eraseIdx j = ts' := Option.some.inj h
        have hjlen : j < ts.length := findIdx?_lt_length hfi
        refine ⟨?_, ?_, ?_⟩
        · rw [List.length_eraseIdx, if_pos hjlen]
          omega
        · rw [eraseIdx_get?_zero ts j hj]
        · intro id' j' hcmd hfind'
          obtain rfl : id = id' := by
            cases hcmd
            rfl
          rw [hfi] at hfind'
          obtain rfl : j = j' := Option.some.inj hfind'
          exact ⟨fun _ => rfl, fun h0 => absurd h0 hj⟩
  | SpawnAt id start =>
    unfold execute_command at h
    dsimp only at h
    rcases hfi : ts.findIdx? (fun u => u.id == id) with _ | j <;> rw [hfi] at h
    · exact absurd h (by simp)
    · dsimp only at h
      rcases hg : ts.get? j with _ | tl <;> rw [hg] at h
      · exact absurd h (by simp)
      · dsimp only at h
        obtain rfl :
            (ts.set j { tl with instruction_pointer := start }).insertIdx (j + 1)
              (tl.clone_new_id fresh) = ts' := Option.some.inj h
        have hjlen : j < ts.length := lt_of_get?_some hg
        refine ⟨?_, ?_, fun id' j' hcmd => absurd hcmd (by simp)⟩
        · rw [List.length_insertIdx]
          · simp
          · rw [List.length_set]
            omega
        · rw [get?_insertIdx_of_lt _ _ _ _ (Nat.succ_pos j)]
          refine get?_zero_map_id_set ts j _ ?_
          intro u hu
          rw [hg] at hu
          obtain rfl : tl = u := Option.some.inj hu
          rfl
  | MovePointer id dir =>
    cases dir with
    | Left => exact absurd h (by simp [execute_command])
    | Right => exact absurd h (by simp [execute_command])
    | Up =>
      unfold execute_command at h
      dsimp only at h
      rcases hfi : ts.findIdx? (fun u => u.id == id) with _ | j <;> rw [hfi] at h
      · exact absurd h (by simp)
      · dsimp only at h
        rcases hg : ts.get? j with _ | tl <;> rw [hg] at h
        · exact absurd h (by simp)
        · dsimp only at h
          by_cases hj : j ≠ 0
          · rw [if_pos hj] at h
            rcases hg2 : (ts.set j { tl with pointers := [] }).get? (j - 1)
              with _ | target <;> rw [hg2] at h
            · exact absurd h (by simp)
            · obtain rfl :
                  (ts.set j { tl with pointers := [] }).set (j - 1)
                    (tl.pointers.foldl (fun (a : Timeline) p => a.extend_data p)
                      { target with pointers := target.pointers ++ tl.pointers }) = ts' :=
                Option.some.inj h
              refine ⟨?_, ?_, fun id' j' hcmd => absurd hcmd (by simp)⟩
              · simp only [List.length_set]
                omega
              · have step1 :
                    (((ts.set j { tl with pointers := [] }).set (j - 1)
                      (tl.pointers.foldl (fun (a : Timeline) p => a.extend_data p)
                        { target with
                          pointers := target.pointers ++ tl.pointers })).get? 0).map Timeline.id
                    = (((ts.set j { tl with pointers := [] })).get? 0).map Timeline.id := by
                  refine get?_zero_map_id_set _ _ _ ?_
                  intro u hu
                  rw [hg2] at hu
                  obtain rfl : target = u := Option.some.inj hu
                  rw [foldl_extend_id]
                have step2 :
                    (((ts.set j { tl with pointers := [] })).get? 0).map Timeline.id
                    = (ts.get? 0).map Timeline.id := by
                  refine get?_zero_map_id_set _ _ _ ?_
                  intro u hu
                  rw [hg] at hu
                  obtain rfl : tl = u := Option.some.inj hu
                  rfl
                exact step1.trans step2
          · rw [if_neg hj] at h
            obtain rfl : ts.set j { tl with pointers := [] } = ts' := Option.some.inj h
            refine ⟨?_, ?_, fun id' j' hcmd => absurd hcmd (by simp)⟩
            · simp only [List.length_set]
              omega
            · refine get?_zero_map_id_set ts j _ ?_
              intro u hu
              rw [hg] at hu
              obtain rfl : tl = u := Option.some.inj hu
              rfl
    | Down =>
      unfold execute_command at h
      dsimp only at h
      rcases hfi : ts.findIdx? (fun u => u.id == id) with _ | j <;> rw [hfi] at h
      · exact absurd h (by simp)
      · dsimp only at h
        rcases hg : ts.get? j with _ | tl <;> rw [hg] at h
        · exact absurd h (by simp)
        · dsimp only at h
          by_cases hj : j ≠ 0
          · rw [if_pos hj] at h
            rcases hg2 : (ts.set j { tl with pointers := [] }).get? (j + 1)
              with _ | target <;> rw [hg2] at h
            · exact absurd h (by simp)
            · obtain rfl :
                  (ts.set j { tl with pointers := [] }).set (j + 1)
                    { target with pointers := target.pointers ++ tl.pointers } = ts' :=
                Option.some.inj h
              refine ⟨?_, ?_, fun id' j' hcmd => absurd hcmd (by simp)⟩
              · simp only [List.length_set]
                omega
              · have step1 :
                    (((ts.set j { tl with pointers := [] }).set (j + 1)
                      { target with
                        pointers := target.pointers ++ tl.pointers }).get? 0).map Timeline.id
                    = (((ts.set j { tl with pointers := [] })).get? 0).map Timeline.id := by
                  refine get?_zero_map_id_set _ _ _ ?_
                  intro u hu
                  rw [hg2] at hu
                  obtain rfl : target = u := Option.some.inj hu
                  rfl
                have step2 :
                    (((ts.set j { tl with pointers := [] })).get? 0).map Timeline.id
                    = (ts.get? 0).map Timeline.id := by
                  refine get?_zero_map_id_set _ _ _ ?_
                  intro u hu
                  rw [hg] at hu
                  obtain rfl : tl = u := Option.some.inj hu
                  rfl
                exact step1.trans step2
          · rw [if_neg hj] at h
            obtain rfl : ts.set j { tl with pointers := [] } = ts' := Option.some.inj h
            refine ⟨?_, ?_, fun id' j' hcmd => absurd hcmd (by simp)⟩
            · simp only [List.length_set]
              omega
            · refine get?_zero_map_id_set ts j _ ?_
              intro u hu
              rw [hg] at hu
              obtain rfl : tl = u := Option.some.inj hu
              rfl

theorem root_protection_C6_witness :
    [Timeline.new 0] ≠ []
    ∧ execute_command 3 (Command.RemoveAt 0) [Timeline.new 0] = some [Timeline.new 0]
    ∧ (1 ≤ [Timeline.new 0].length
      ∧ ([Timeline.new 0].get? 0).map Timeline.id
          = ([Timeline.new 0].get? 0).map Timeline.id
      ∧ (∀ id j, Command.RemoveAt 0 = Command.RemoveAt id →
          [Timeline.new 0].findIdx? (fun u => u.id == id) = some j →
          (j ≠ 0 → [Timeline.new 0] = [Timeline.new 0].eraseIdx j)
            ∧ (j = 0 → [Timeline.new 0] = [Timeline.new 0]))) :=
  ⟨by decide, rfl,
    root_protection_C6 3 (Command.RemoveAt 0) [Timeline.new 0] [Timeline.new 0]
      (by decide) rfl⟩

/-- C4, counterexample: a `MovePointer Down` transfer does NOT extend the
receiving timeline's tape, so the transferred offset 3 is undefined on the
receiver (`data_at 3 = none`), and the cell lookups of both Write and
Jump-If-Zero on the receiver then hit `unwrap` on `None` — a fatal runtime
error (modelled as `none`). -/
theorem data_definedness_C4_counterexample :
    execute_command 9 (Command.MovePointer 1 MoveDirection.Down)
        [Timeline.mk 0 [0] [] [0] [] 0 true, Timeline.mk 1 [0] [] [3] [] 0 true,
          Timeline.mk 2 [0] [] [] [] 0 true]
      = some [Timeline.mk 0 [0] [] [0] [] 0 true, Timeline.mk 1 [0] [] [] [] 0 true,
          Timeline.mk 2 [0] [] [3] [] 0 true]
    ∧ (Timeline.mk 2 [0] [] [3] [] 0 true).data_at 3 = none
    ∧ (Timeline.mk 2 [0] [] [3] [] 0 true).update (mkCtx [Token.Write]) = none
    ∧ (Timeline.mk 2 [0] [] [3] [] 0 true).update (mkCtx [Token.Jump JumpType.IfZero 0])
        = none :=
  ⟨by decide, by decide, by decide, by decide⟩

/-- C4, amended: tape access through `extend_data` always succeeds —
`data_at` is defined after extension and defaults to 0 for a previously
unvisited offset; Move-Left/Right extends the tape for every shifted
cursor, so all cursor lookups stay defined; and a `MovePointer` UP
transfer extends the receiving timeline's tape to cover each transferred
offset, so the receiver's lookups succeed at every transferred offset and
previously covered cells keep their values.  (A Down transfer performs no
extension and the lookup can fail — see the counterexample.) -/
theorem data_definedness_C4_amended (fresh : Nat) (ts : List Timeline) (id i : Nat)
    (mover : Timeline)
    (hfind : ts.findIdx? (fun u => u.id == id) = some i)
    (hi : i ≠ 0)
    (hm : ts.get? i = some mover) :
    (∀ (u : Timeline) (q : Int), ((u.extend_data q).data_at q).isSome)
    ∧ (∀ (u : Timeline) (q : Int), u.data_at q = none →
        (u.extend_data q).data_at q = some 0)
    ∧ (∀ (u : Timeline) (d p : Int), p ∈ (u.movePointers d).pointers →
        ((u.movePointers d).data_at p).isSome)
    ∧ (∀ target, ts.get? (i - 1) = some target →
        ∃ ts', execute_command fresh (Command.MovePointer id MoveDirection.Up) ts = some ts'
          ∧ ∃ recv, ts'.get? (i - 1) = some recv
            ∧ recv.pointers = target.pointers ++ mover.pointers
            ∧ (∀ p ∈ mover.pointers, (recv.data_at p).isSome)
            ∧ (∀ (q : Int) (w : Nat), target.data_at q = some w →
                recv.data_at q = some w)) := by
  refine ⟨fun u q => extend_data_data_at_isSome u q,
    fun u q h => extend_data_data_at_self_of_none u h, ?_, ?_⟩
  · intro u d p hp
    unfold Timeline.movePointers at hp ⊢
    dsimp only at hp ⊢
    rw [moveLoop_fst] at hp
    rcases List.mem_map.1 hp with ⟨q, hq, rfl⟩
    rw [data_at_pointers_irrel]
    exact moveLoop_mem_isSome d u.pointers u hq
  · intro target htarget
    refine ⟨_, execute_up_eq fresh ts id i mover target hfind hm hi htarget, ?_⟩
    have hlen : i - 1 < ((ts.set i { mover with pointers := [] })).length := by
      rw [List.length_set]
      have := lt_of_get?_some hm
      omega
    refine ⟨_, List.get?_set_eq_of_lt _ hlen, ?_, ?_, ?_⟩
    · exact foldl_extend_pointers _ _
    · intro p hp
      exact foldl_extend_mem_isSome mover.pointers _ hp
    · intro q w hw
      refine foldl_extend_preserves_some mover.pointers _ ?_
      rw [data_at_pointers_irrel]
      exact hw

theorem data_definedness_C4_amended_witness :
    [c5a, c5b].findIdx? (fun u => u.id == 1) = some 1
    ∧ (1 : Nat) ≠ 0
    ∧ [c5a, c5b].get? 1 = some c5b
    ∧ ((∀ (u : Timeline) (q : Int), ((u.extend_data q).data_at q).isSome)
      ∧ (∀ (u : Timeline) (q : Int), u.data_at q = none →
          (u.extend_data q).data_at q = some 0)
      ∧ (∀ (u : Timeline) (d p : Int), p ∈ (u.movePointers d).pointers →
          ((u.movePointers d).data_at p).isSome)
      ∧ (∀ target, [c5a, c5b].get? (1 - 1) = some target →
          ∃ ts', execute_command 9 (Command.MovePointer 1 MoveDirection.Up) [c5a, c5b]
              = some ts'
            ∧ ∃ recv, ts'.get? (1 - 1) = some recv
              ∧ recv.pointers = target.pointers ++ c5b.pointers
              ∧ (∀ p ∈ c5b.pointers, (recv.data_at p).isSome)
              ∧ (∀ (q : Int) (w : Nat), target.data_at q = some w →
                  recv.data_at q = some w))) :=
  ⟨rfl, by decide, rfl,
    data_definedness_C4_amended 9 [c5a, c5b] 1 1 c5b rfl (by decide) rfl⟩

end BF5D
